import Mathlib

/-
Verification of the lang_ast tokenizer engine (src/src/lexer.rs).

The source file is shallowly embedded below.  The text buffer is modelled
as a list of bytes (`List Nat`); `usize` offsets are `Nat`; mutation of the
`Lexer` struct is modelled by explicit state passing; `Vec` is a `List`
whose `push` appends at the tail, whose `last`/`pop` act on the tail; the
`HashMap` of delimiter pairs is an association list looked up by key
equality; the precedence `HashMap` is a finitely-built lookup function
where a later `insert` overwrites an earlier one; a compiled `Regex` is
represented by its `find_at` behaviour, a function from the haystack and a
start offset to an optional `(start, end)` match span; `Result` is
`Except`; a `.unwrap()` on `None` is modelled by a distinguished
`panicked` outcome.  Loops are given explicit fuel; every fuel bound used
is provably sufficient for the runs the theorems mention, and exhaustion
is kept apart as a `diverged` outcome (the Rust loop really can diverge,
e.g. on a pattern rule that matches the empty string).
-/

set_option maxRecDepth 8192

/-- Modelled from the spec: the crate-root semantic value type `AstAny`
lives outside src/; the lexer itself only ever uses its `Unknow` variant
(the opaque, not-yet-assigned `value` slot of a token). -/
inductive AstAny where
  | Unknow
deriving DecidableEq, Repr

/-- LexToken from src/src/lexer.rs: a recognized span of text.  `data` is
the shared text buffer (an `Arc<String>` in the source, a byte list here);
`start`/`end` are half-open byte offsets; `subs` are the children produced
by the grouping pass. -/
structure LexToken where
  ty : String
  data : List Nat
  lineno : Nat
  start : Nat
  «end» : Nat
  subs : List LexToken
  value : AstAny

instance : Inhabited LexToken := ⟨⟨"", [], 0, 0, 0, [], .Unknow⟩⟩

/-- Modelled from the spec: the crate-root error type `AstError` lives
outside src/; the lexer constructs it via `new_no_match_close_error`
(carrying the unmatched opener token), and handlers may produce their own
error values, modelled by the `handlerError` constructor. -/
inductive AstError where
  | noMatchClose (token : LexToken)
  | handlerError (code : Nat)

/-- sliceBytes models `self.data.get(s..e).unwrap()`: the half-open byte
slice `[s, e)` of the buffer. -/
def sliceBytes (data : List Nat) (s e : Nat) : List Nat :=
  (data.take e).drop s

/-- LexToken::get_value: the slice of the shared buffer this token spans. -/
def LexToken.get_value (t : LexToken) : List Nat :=
  sliceBytes t.data t.start t.«end»

/-- LexToken::clone_base_token: a copy sharing the buffer with the same
span but no children and an unset value. -/
def LexToken.clone_base_token (t : LexToken) : LexToken :=
  ⟨t.ty, t.data, t.lineno, t.start, t.«end», [], .Unknow⟩

/-- LexPrec from the source: one precedence declaration. -/
structure LexPrec where
  ty : String
  left : Bool
  precs : List String

/-- LexRegex from the source: a registered pattern rule.  The compiled
`Regex` is modelled by its `find_at` behaviour: `re data ori` is the
leftmost match of the pattern in `data` searching from byte offset `ori`,
as an optional `(start, end)` span. -/
structure LexRegex where
  re : List Nat → Nat → Option (Nat × Nat)
  ty : String

/-- listPrefixTest needle hay: does `needle` occur at the head of `hay`? -/
def listPrefixTest : List Nat → List Nat → Bool
  | [], _ => true
  | _ :: _, [] => false
  | a :: as, b :: bs => a == b && listPrefixTest as bs

/-- containsSub needle hay models Rust `str::contains`/`str::find`
returning whether `needle` occurs as a contiguous substring of `hay`. -/
def containsSub (needle : List Nat) : List Nat → Bool
  | [] => needle.isEmpty
  | b :: rest => listPrefixTest needle (b :: rest) || containsSub needle rest

/-- countLeadBits b fuel: the number of leading one bits of the byte `b`,
computed exactly as the loop in `get_next_pos` does (check the high bit,
then shift left by one as a `u8`).  For `b < 256` the loop runs at most 8
times, so fuel 8 computes the exact value. -/
def countLeadBits : Nat → Nat → Nat
  | _, 0 => 0
  | b, fuel + 1 => if b &&& 0x80 = 0 then 0 else countLeadBits ((b * 2) % 256) fuel + 1

/-- get_next_pos from the source (byte-buffer level): given a byte offset,
the offset one encoded character further, or none at or past end of
buffer, or when the leading-byte length would overrun the buffer. -/
def get_next_pos_bytes (data : List Nat) (ori : Nat) : Option Nat :=
  if ori ≥ data.length then none
  else
    let byte := data.getD ori 0
    let byte_len := max (countLeadBits byte 8) 1
    let pos := ori + byte_len
    if pos > data.length then none else some pos

/-- get_now_lineno from the source (byte-buffer level): the number of
newline bytes in `[0, pos)` plus one. -/
def get_now_lineno_bytes (data : List Nat) (pos : Nat) : Nat :=
  (data.take pos).count 10 + 1

/-- findRule models the pattern-rule loop of `get_token`: try every
registered rule in registration order; a rule is skipped when it has no
match from `ori` or its match does not begin exactly at `ori`; the first
surviving rule wins. -/
def findRule : List LexRegex → List Nat → Nat → Option (String × Nat × Nat)
  | [], _, _ => none
  | r :: rest, data, ori =>
    match r.re data ori with
    | some (s, e) => if s = ori then some (r.ty, s, e) else findRule rest data ori
    | none => findRule rest data ori

/-- get_tokenCore is the retry loop of `get_token`, parameterized by the
lexer fields it reads.  `ori` is the local scan offset, `selfPos` the
stored cursor `self.pos`; the returned `Nat` is the value of `self.pos`
when the function returns.  Note the unrecognized-skip branch advances
only `ori`, not `selfPos`, exactly as the source does.  The fuel
`data.length + 1` used by `Lexer.get_token` is sufficient because each
retry strictly advances `ori`, which is bounded by the buffer length. -/
def get_tokenCore (data ignore literals : List Nat) (res : List LexRegex) :
    Nat → Nat → Nat → Option LexToken × Nat
  | 0, _, selfPos => (none, selfPos)
  | fuel + 1, ori, selfPos =>
    match get_next_pos_bytes data ori with
    | none => (none, selfPos)
    | some pos =>
      let val := sliceBytes data ori pos
      if containsSub val ignore then
        get_tokenCore data ignore literals res fuel pos pos
      else if containsSub val literals then
        (some ⟨"lit", data, get_now_lineno_bytes data ori, ori, pos, [], .Unknow⟩, pos)
      else
        match findRule res data ori with
        | some (ty, s, e) =>
          (some ⟨ty, data, get_now_lineno_bytes data ori, s, e, [], .Unknow⟩, e)
        | none => get_tokenCore data ignore literals res fuel pos selfPos

/-- The Lexer struct from the source.  `H` is the handler type; the
`Handler` trait's `on_read(&mut self, &mut LexToken) -> AstResult<AstAny>`
method is modelled by the function field `onRead` (the trait itself lives
outside src/). -/
structure Lexer (H : Type) where
  res : List LexRegex
  data : List Nat
  tokenstack : List LexToken
  wait_token : List LexToken
  pos : Nat
  len : Nat
  handler : H
  onRead : H → LexToken → H × Except AstError AstAny
  ignore : List Nat
  literals : List Nat
  hash_matchs : List ((String × List Nat) × List Nat)
  precs : List LexPrec
  prec_hash : (String × String) → Option (Bool × Int)

/-- lookupMatch models `HashMap::get`/`contains_key` on the delimiter pair
map: lookup by key equality. -/
def lookupMatch (m : List ((String × List Nat) × List Nat)) (k : String × List Nat) :
    Option (List Nat) :=
  List.lookup k m

/-- insertKV models one `HashMap::insert` on the precedence table: the new
binding shadows any earlier one for the same key. -/
def insertKV (m : (String × String) → Option (Bool × Int)) (k : String × String)
    (v : Bool × Int) : (String × String) → Option (Bool × Int) :=
  fun q => if q = k then some v else m q

/-- insertRule: the inner loop of `do_analyse_prec`: insert every lexeme of
one declaration with that declaration's associativity and index. -/
def insertRule (m : (String × String) → Option (Bool × Int)) (r : LexPrec)
    (idx : Nat) : (String × String) → Option (Bool × Int) :=
  r.precs.foldl (fun acc p => insertKV acc (r.ty, p) (r.left, (idx : Int))) m

/-- analyseGo: the outer loop of `do_analyse_prec`, processing the
declarations in order with their running index. -/
def analyseGo : List LexPrec → Nat → ((String × String) → Option (Bool × Int)) →
    (String × String) → Option (Bool × Int)
  | [], _, m => m
  | r :: rs, idx, m => analyseGo rs (idx + 1) (insertRule m r idx)

/-- do_analyse_prec from the source: build the precedence table from the
declared rule list, starting from the empty map. -/
def do_analyse_prec (precs : List LexPrec) : (String × String) → Option (Bool × Int) :=
  analyseGo precs 0 (fun _ => none)

/-- strBytes: byte encoding of an ASCII string literal, used for the
default configuration strings of the source. -/
def strBytes (s : String) : List Nat :=
  s.toList.map Char.toNat

/-- defaultPrecs: the precedence declarations installed by `Lexer::new`. -/
def defaultPrecs : List LexPrec :=
  [⟨"lit", true, ["+", "-"]⟩, ⟨"lit", true, ["*", "/"]⟩, ⟨"lit", false, ["-"]⟩]

/-- Lexer::new from the source: defaults for the ignorable set, the
literal set, the delimiter pair map and the precedence declarations, with
the precedence table computed by `do_analyse_prec`. -/
def Lexer.new (data : List Nat) (handler : H)
    (onRead : H → LexToken → H × Except AstError AstAny) : Lexer H :=
  { res := []
    data := data
    tokenstack := []
    wait_token := []
    pos := 0
    len := 0
    handler := handler
    onRead := onRead
    ignore := strBytes " \t"
    literals := strBytes "+-*/%^<>=!?()[]\x7b\x7d.,;:"
    hash_matchs := [(("lit", strBytes "("), strBytes ")"),
                    (("lit", strBytes "\x7b"), strBytes "\x7d"),
                    (("lit", strBytes "["), strBytes "]")]
    precs := defaultPrecs
    prec_hash := do_analyse_prec defaultPrecs }

/-- Lexer::add_regex: append a pattern rule (registration order is the
order of `res`). -/
def Lexer.add_regex (lex : Lexer H) (ty : String)
    (re : List Nat → Nat → Option (Nat × Nat)) : Lexer H :=
  { lex with res := lex.res ++ [⟨re, ty⟩] }

/-- Lexer::get_next_pos, delegating to the byte-level function. -/
def Lexer.get_next_pos (lex : Lexer H) (ori : Nat) : Option Nat :=
  get_next_pos_bytes lex.data ori

/-- Lexer::get_now_lineno, delegating to the byte-level function. -/
def Lexer.get_now_lineno (lex : Lexer H) (pos : Nat) : Nat :=
  get_now_lineno_bytes lex.data pos

/-- Lexer::get_token: run the retry loop from the stored cursor and write
the returned cursor back into the state. -/
def Lexer.get_token (lex : Lexer H) : Option LexToken × Lexer H :=
  let r := get_tokenCore lex.data lex.ignore lex.literals lex.res
    (lex.data.length + 1) lex.pos lex.pos
  (r.1, { lex with pos := r.2 })

/-- How one run of the `while let` loop of `parser_token` ends: the input
was exhausted normally, an `unwrap()` on an empty stack fired, or the fuel
ran out (the Rust loop diverges, e.g. on a zero-width pattern match). -/
inductive LoopExit where
  | normal
  | panicked
  | fuelOut
deriving DecidableEq, Repr

/-- parserLoop is the `while let Some(token) = self.get_token()` loop of
`parser_token`, transcribed branch by branch.  Both
`self.tokenstack.last_mut().unwrap()` sites and the
`self.tokenstack.pop().unwrap()` site are modelled: on an empty stack they
end the run with `.panicked`. -/
def parserLoop : Nat → Lexer H → Lexer H × LoopExit
  | 0, lex => (lex, .fuelOut)
  | fuel + 1, lex =>
    match Lexer.get_token lex with
    | (none, lex1) => (lex1, .normal)
    | (some token, lex1) =>
      if (lookupMatch lex1.hash_matchs (token.ty, token.get_value)).isSome then
        parserLoop fuel { lex1 with
          wait_token := lex1.wait_token ++ [token.clone_base_token],
          tokenstack := lex1.tokenstack ++ [token] }
      else if lex1.wait_token.length > 0 then
        let last := lex1.wait_token.getLastD default
        let same_type : Bool := (last.ty == token.ty) &&
          (lookupMatch lex1.hash_matchs (last.ty, last.get_value) == some token.get_value)
        match lex1.tokenstack.getLast? with
        | none => (lex1, .panicked)
        | some top =>
          let lex2 := { lex1 with tokenstack :=
            lex1.tokenstack.dropLast ++ [{ top with subs := top.subs ++ [token] }] }
          if same_type then
            let lex3 := { lex2 with wait_token := lex2.wait_token.dropLast }
            if lex3.wait_token.length > 0 then
              match lex3.tokenstack.getLast? with
              | none => (lex3, .panicked)
              | some last_group =>
                let rest := lex3.tokenstack.dropLast
                match rest.getLast? with
                | none => ({ lex3 with tokenstack := rest }, .panicked)
                | some top2 =>
                  parserLoop fuel { lex3 with tokenstack :=
                    rest.dropLast ++ [{ top2 with subs := top2.subs ++ [last_group] }] }
            else parserLoop fuel lex3
          else parserLoop fuel lex2
      else
        parserLoop fuel { lex1 with tokenstack := lex1.tokenstack ++ [token] }

/-- How a call to `parser_token` (or `eval`) ends. -/
inductive ParseOutcome where
  | ok
  | err (e : AstError)
  | panicked
  | diverged

/-- Lexer::parser_token from the source: reset the build stack (the
pending-opener stack is NOT reset), run the grouping loop, and if the
pending-opener stack is non-empty at the end pop its last element into an
unbalanced-delimiter error. -/
def Lexer.parser_token (lex : Lexer H) : Lexer H × ParseOutcome :=
  let lex0 := { lex with tokenstack := ([] : List LexToken) }
  match parserLoop (lex.data.length + 1) lex0 with
  | (lex1, .normal) =>
    if lex1.wait_token.length > 0 then
      ({ lex1 with wait_token := lex1.wait_token.dropLast },
       .err (AstError.noMatchClose (lex1.wait_token.getLastD default)))
    else (lex1, .ok)
  | (lex1, .panicked) => (lex1, .panicked)
  | (lex1, .fuelOut) => (lex1, .diverged)

/-- Lexer::iter_read_token: hand one completed root token to the handler;
its error, if any, is returned to the caller (which `eval` then drops). -/
def Lexer.iter_read_token (lex : Lexer H) (token : LexToken) :
    Lexer H × Except AstError Unit :=
  match lex.onRead lex.handler token with
  | (h, Except.ok _) => ({ lex with handler := h }, Except.ok ())
  | (h, Except.error e) => ({ lex with handler := h }, Except.error e)

/-- evalLoop is the `for token in temp.drain(..)` loop of `eval`: the
result of `iter_read_token` is DISCARDED, exactly as in the source. -/
def evalLoop : Lexer H → List LexToken → Lexer H
  | lex, [] => lex
  | lex, t :: ts => evalLoop (Lexer.iter_read_token lex t).1 ts

/-- Lexer::eval from the source: group first when the build stack is empty
(propagating a grouping failure with `?`), then drain the root tokens
through the handler, ignoring each call's result, and return
`Ok(AstAny::Unknow)`. -/
def Lexer.eval (lex : Lexer H) : Lexer H × ParseOutcome :=
  match (if lex.tokenstack.length = 0 then Lexer.parser_token lex else (lex, ParseOutcome.ok)) with
  | (lex1, ParseOutcome.ok) =>
    let temp := lex1.tokenstack
    (evalLoop { lex1 with tokenstack := ([] : List LexToken) } temp, ParseOutcome.ok)
  | (lex1, ParseOutcome.err e) => (lex1, ParseOutcome.err e)
  | (lex1, ParseOutcome.panicked) => (lex1, ParseOutcome.panicked)
  | (lex1, ParseOutcome.diverged) => (lex1, ParseOutcome.diverged)

/-- flatTokens: the flat token sequence of a lexer, realized by repeated
`get_token` calls as in the spec's §4.2 (fuel as in `get_token`). -/
def flatTokensCore : Nat → Lexer H → List LexToken
  | 0, _ => []
  | fuel + 1, lex =>
    match Lexer.get_token lex with
    | (none, _) => []
    | (some t, lex1) => t :: flatTokensCore fuel lex1

/-- flatTokens with its standard fuel. -/
def flatTokens (lex : Lexer H) : List LexToken :=
  flatTokensCore (lex.data.length + 1) lex

/-- utf8Len: the encoded length of a Unicode scalar value. -/
def utf8Len (c : Nat) : Nat :=
  if c < 0x80 then 1 else if c < 0x800 then 2 else if c < 0x10000 then 3 else 4

/-- utf8EncodeChar: the UTF-8 byte encoding of a codepoint. -/
def utf8EncodeChar (c : Nat) : List Nat :=
  if c < 0x80 then [c]
  else if c < 0x800 then [0xC0 + c / 64, 0x80 + c % 64]
  else if c < 0x10000 then [0xE0 + c / 4096, 0x80 + c / 64 % 64, 0x80 + c % 64]
  else [0xF0 + c / 262144, 0x80 + c / 4096 % 64, 0x80 + c / 64 % 64, 0x80 + c % 64]

/-- utf8EncodeList: the UTF-8 byte encoding of a codepoint sequence. -/
def utf8EncodeList (cs : List Nat) : List Nat :=
  (cs.map utf8EncodeChar).flatten

/-- isBoundary cs i: is byte offset `i` an encoded-character boundary of
the UTF-8 encoding of the codepoint sequence `cs`? -/
def isBoundary : List Nat → Nat → Bool
  | _, 0 => true
  | [], _ + 1 => false
  | c :: cs, i + 1 => if utf8Len c ≤ i + 1 then isBoundary cs (i + 1 - utf8Len c) else false

/-- unitRead: a trivial handler implementation used by concrete examples. -/
def unitRead : Unit → LexToken → Unit × Except AstError AstAny :=
  fun u _ => (u, Except.ok AstAny.Unknow)

/-- mkLex: a lexer over an ASCII input with the default configuration and
a trivial handler. -/
def mkLex (s : String) : Lexer Unit :=
  Lexer.new (strBytes s) () unitRead

/-- digitFindFrom: helper for `digitFindAt`, scanning the suffix of the
buffer for the first digit byte and extending the match over the digit
run; `i` is the absolute offset of the suffix head. -/
def digitFindFrom : List Nat → Nat → Option (Nat × Nat)
  | [], _ => none
  | b :: rest, i =>
    if 48 ≤ b ∧ b ≤ 57 then
      some (i, i + 1 + (rest.takeWhile (fun x => 48 ≤ x && x ≤ 57)).length)
    else digitFindFrom rest (i + 1)

/-- digitFindAt models the `find_at` behaviour of a digit-run pattern rule
(the regex `[0-9]+`): the leftmost digit run beginning at or after `ori`. -/
def digitFindAt (data : List Nat) (ori : Nat) : Option (Nat × Nat) :=
  digitFindFrom (data.drop ori) ori

/-- starFindAt models the `find_at` behaviour of the pattern `b*`, a
perfectly legal regex that can match the empty string: its leftmost match
from `ori` begins at `ori` itself and covers the (possibly empty) run of
`b` bytes there. -/
def starFindAt (data : List Nat) (ori : Nat) : Option (Nat × Nat) :=
  if ori ≤ data.length then
    some (ori, ori + ((data.drop ori).takeWhile (fun x => x == 98)).length)
  else none

/-- A rule matching `[0, 1)` only when called at offset 0. -/
def ruleAFind : List Nat → Nat → Option (Nat × Nat) :=
  fun _ i => if i = 0 then some (0, 1) else none

/-- A rule matching the longer span `[0, 2)` only when called at offset 0. -/
def ruleBFind : List Nat → Nat → Option (Nat × Nat) :=
  fun _ i => if i = 0 then some (0, 2) else none

/-- lexStale: the state a caller reaches by running a pass that fails with
two unmatched openers (input `"(("`), then pointing the public `pos` and
`data` fields at a fresh non-opener input, as the pub fields permit. -/
def lexStale : Lexer Unit :=
  { (Lexer.parser_token (mkLex "((")).1 with pos := 0, data := strBytes "+" }

/-- logRead: a handler implementation that records every token it is
asked to evaluate and fails on each one. -/
def logRead : List LexToken → LexToken → List LexToken × Except AstError AstAny :=
  fun h t => (h ++ [t], Except.error (AstError.handlerError 0))

/-- lexC2: input `"+ -"` (two root-level literal tokens) driven with the
always-failing, call-logging handler. -/
def lexC2 : Lexer (List LexToken) := Lexer.new (strBytes "+ -") [] logRead

/-- lexA: the claim's first configuration: default literals plus one digit
pattern rule, over `"(1+2)*3"`. -/
def lexA : Lexer Unit := (mkLex "(1+2)*3").add_regex "digit" digitFindAt

/-- lexB: the same configuration over `"((1))"`. -/
def lexB : Lexer Unit := (mkLex "((1))").add_regex "digit" digitFindAt

/-- dataA: the bytes of `"(1+2)*3"`. -/
def dataA : List Nat := strBytes "(1+2)*3"

/-- dataB: the bytes of `"((1))"`. -/
def dataB : List Nat := strBytes "((1))"

/-- A successful `get_next_pos` strictly advances and stays within the buffer. -/
theorem get_next_pos_lt (data : List Nat) (ori p : Nat)
    (h : get_next_pos_bytes data ori = some p) : ori < p ∧ p ≤ data.length := by
  simp only [get_next_pos_bytes] at h
  split at h
  · exact absurd h (by simp)
  · split at h
    · exact absurd h (by simp)
    · rename_i h1 h2
      have h3 := Option.some.inj h
      omega

/-- What a successful `findRule` implies: the winner starts exactly at
`ori` and is one of the registered rules. -/
theorem findRule_sound (res : List LexRegex) (data : List Nat) (ori : Nat)
    (ty : String) (s e : Nat) (h : findRule res data ori = some (ty, s, e)) :
    s = ori ∧ ∃ r ∈ res, r.re data ori = some (s, e) ∧ r.ty = ty := by
  induction res with
  | nil => simp [findRule] at h
  | cons r rest ih =>
    simp only [findRule] at h
    split at h
    · rename_i s' e' hre
      split at h
      · rename_i hs
        simp only [Option.some.injEq, Prod.mk.injEq] at h
        obtain ⟨hty, hs2, he2⟩ := h
        subst hty hs2 he2
        exact ⟨hs, r, List.mem_cons_self _ _, hre, rfl⟩
      · obtain ⟨hs, r', hmem, hre', hty⟩ := ih h
        exact ⟨hs, r', List.mem_cons_of_mem _ hmem, hre', hty⟩
    · obtain ⟨hs, r', hmem, hre', hty⟩ := ih h
      exact ⟨hs, r', List.mem_cons_of_mem _ hmem, hre', hty⟩

/-- Core width lemma: when no registered rule can produce an empty match,
every token the retry loop emits is nonzero-width. -/
theorem getTokenCore_width (data ign lits : List Nat) (res : List LexRegex)
    (hrules : ∀ r ∈ res, ∀ i s e, r.re data i = some (s, e) → s < e) :
    ∀ fuel ori sp t p, get_tokenCore data ign lits res fuel ori sp = (some t, p) →
      t.start < t.«end» := by
  intro fuel
  induction fuel with
  | zero => intro ori sp t p h; simp [get_tokenCore] at h
  | succ n ih =>
    intro ori sp t p h
    simp only [get_tokenCore] at h
    split at h
    · exact absurd h (by simp)
    · rename_i pos hnp
      split at h
      · exact ih _ _ _ _ h
      · split at h
        · simp only [Prod.mk.injEq, Option.some.injEq] at h
          obtain ⟨ht, hp⟩ := h
          subst ht
          exact (get_next_pos_lt data ori pos hnp).1
        · split at h
          · rename_i ty s e hfr
            simp only [Prod.mk.injEq, Option.some.injEq] at h
            obtain ⟨ht, hp⟩ := h
            subst ht
            obtain ⟨hs, r, hmem, hre, hty⟩ := findRule_sound res data ori ty s e hfr
            exact hrules r hmem ori s e hre
          · exact ih _ _ _ _ h

/-- C7 (amended): provided no registered pattern rule can produce an
empty match, every token emitted by `get_token` has `start < end`.  (The
unamended claim, quantifying over every configuration of pattern rules,
fails: a rule like `b*` matches the empty string and yields a zero-width
token, see the counterexample.) -/
theorem c7_amended_nonzero_width (H : Type) (lex : Lexer H)
    (hrules : ∀ r ∈ lex.res, ∀ i s e, r.re lex.data i = some (s, e) → s < e)
    (t : LexToken) (lex1 : Lexer H) (h : Lexer.get_token lex = (some t, lex1)) :
    t.start < t.«end» := by
  have h1 : (get_tokenCore lex.data lex.ignore lex.literals lex.res
      (lex.data.length + 1) lex.pos lex.pos).1 = some t := congrArg Prod.fst h
  exact getTokenCore_width lex.data lex.ignore lex.literals lex.res hrules
    (lex.data.length + 1) lex.pos lex.pos t _ (Prod.ext h1 rfl)

/-- C7 witness: the default lexer on `"+"` (no pattern rules) emits the
one-byte literal token, which is nonzero-width. -/
theorem c7_amended_witness :
    (⟨"lit", strBytes "+", 1, 0, 1, [], .Unknow⟩ : LexToken).start <
      (⟨"lit", strBytes "+", 1, 0, 1, [], .Unknow⟩ : LexToken).«end» :=
  c7_amended_nonzero_width Unit (mkLex "+")
    (by intro r hr; exact absurd hr (List.not_mem_nil r)) _ _ rfl

/-- C7 counterexample: with the pattern rule `b*` registered, `get_token`
on input `"c"` emits a zero-width token (start = end = 0), refuting the
claim that every emitted token has `start < end` for every configuration
of pattern rules. -/
theorem c7_counterexample :
    (Lexer.get_token ((mkLex "c").add_regex "id" starFindAt)).1 =
      some ⟨"id", strBytes "c", 1, 0, 0, [], .Unknow⟩ ∧
    ¬ ((⟨"id", strBytes "c", 1, 0, 0, [], .Unknow⟩ : LexToken).start <
       (⟨"id", strBytes "c", 1, 0, 0, [], .Unknow⟩ : LexToken).«end») :=
  ⟨rfl, by decide⟩

/-- C8 (amended): `get_token` returns none whenever the cursor is at or
past end-of-buffer, leaving the cursor unchanged; but not only then — on a
suffix of unrecognized characters the skip advances only a local scan
offset, so `get_token` can return none with the stored cursor still
strictly before the end (see the counterexample). -/
theorem c8_amended_none_at_end (H : Type) (lex : Lexer H)
    (h : lex.data.length ≤ lex.pos) :
    (Lexer.get_token lex).1 = none ∧ (Lexer.get_token lex).2.pos = lex.pos := by
  have hnp : get_next_pos_bytes lex.data lex.pos = none := by
    simp only [get_next_pos_bytes]
    rw [if_pos h]
  constructor <;> simp [Lexer.get_token, get_tokenCore, hnp]

/-- C8 witness: on the empty buffer the cursor starts at the end and
`get_token` immediately returns none without moving it. -/
theorem c8_amended_witness :
    (Lexer.get_token (mkLex "")).1 = none ∧
      (Lexer.get_token (mkLex "")).2.pos = (mkLex "").pos :=
  c8_amended_none_at_end Unit (mkLex "") (by decide)

/-- C8 counterexample: on input `"@"` (one unrecognized character, no
rules) `get_token` returns none although the stored cursor `pos` is 0,
strictly before the end of the 1-byte buffer, both before and after the
call — refuting the claim that none is returned only with the cursor at or
past end-of-buffer. -/
theorem c8_counterexample :
    (Lexer.get_token (mkLex "@")).1 = none ∧
    (Lexer.get_token (mkLex "@")).2.pos = 0 ∧
    (mkLex "@").pos = 0 ∧
    (mkLex "@").data.length = 1 :=
  ⟨rfl, rfl, rfl, rfl⟩

/-- Rules that do not match exactly at `ori` are skipped by `findRule`. -/
theorem findRule_skip (data : List Nat) (ori : Nat) (rest : List LexRegex) :
    ∀ pre : List LexRegex, (∀ r ∈ pre, ∀ e, r.re data ori ≠ some (ori, e)) →
      findRule (pre ++ rest) data ori = findRule rest data ori := by
  intro pre
  induction pre with
  | nil => intro _; rfl
  | cons r pre' ih =>
    intro hpre
    simp only [List.cons_append, findRule]
    split
    · rename_i s e hre
      split
      · rename_i hs
        subst hs
        exact absurd hre (hpre r (List.mem_cons_self _ _) e)
      · exact ih (fun r' hr' => hpre r' (List.mem_cons_of_mem _ hr'))
    · exact ih (fun r' hr' => hpre r' (List.mem_cons_of_mem _ hr'))

/-- C4: (a) among the registered pattern rules, the first one in
registration order whose match begins exactly at the cursor wins,
regardless of how long any later rule's match is; (b) pattern rules are
only consulted after the ignorable-set and literal-set checks: a literal
character is emitted as a `"lit"` token no matter what the rules would
match. -/
theorem c4_first_registered_wins :
    (∀ (H : Type) (lex : Lexer H) (pre mid post : List LexRegex) (r1 r2 : LexRegex)
        (p e1 e2 : Nat),
      lex.res = pre ++ r1 :: (mid ++ r2 :: post) →
      get_next_pos_bytes lex.data lex.pos = some p →
      containsSub (sliceBytes lex.data lex.pos p) lex.ignore = false →
      containsSub (sliceBytes lex.data lex.pos p) lex.literals = false →
      (∀ r ∈ pre, ∀ e, r.re lex.data lex.pos ≠ some (lex.pos, e)) →
      r1.re lex.data lex.pos = some (lex.pos, e1) →
      r2.re lex.data lex.pos = some (lex.pos, e2) →
      (Lexer.get_token lex).1 =
        some ⟨r1.ty, lex.data, get_now_lineno_bytes lex.data lex.pos, lex.pos, e1, [], .Unknow⟩ ∧
      (Lexer.get_token lex).2.pos = e1) ∧
    (∀ (H : Type) (lex : Lexer H) (p : Nat),
      get_next_pos_bytes lex.data lex.pos = some p →
      containsSub (sliceBytes lex.data lex.pos p) lex.ignore = false →
      containsSub (sliceBytes lex.data lex.pos p) lex.literals = true →
      (Lexer.get_token lex).1 =
        some ⟨"lit", lex.data, get_now_lineno_bytes lex.data lex.pos, lex.pos, p, [], .Unknow⟩ ∧
      (Lexer.get_token lex).2.pos = p) := by
  constructor
  · intro H lex pre mid post r1 r2 p e1 e2 hres hnp hnign hnlit hpre h1 h2
    have hfr : findRule lex.res lex.data lex.pos =
        some (r1.ty, lex.pos, e1) := by
      rw [hres, findRule_skip lex.data lex.pos _ pre hpre]
      simp [findRule, h1]
    simp [Lexer.get_token, get_tokenCore, hnp, hnign, hnlit, hfr]
  · intro H lex p hnp hnign hlit
    simp [Lexer.get_token, get_tokenCore, hnp, hnign, hlit]

/-- C4 witness: with rule `A` (match length 1) registered before rule `B`
(match length 2), both matching at offset 0 of `"ab"`, `get_token` emits
rule `A`'s token; and on the literal `"+"` the literal check wins even
though a rule matches there. -/
theorem c4_witness :
    ((Lexer.get_token (((mkLex "ab").add_regex "A" ruleAFind).add_regex "B" ruleBFind)).1 =
        some ⟨"A", strBytes "ab", get_now_lineno_bytes (strBytes "ab") 0, 0, 1, [], .Unknow⟩ ∧
      (Lexer.get_token (((mkLex "ab").add_regex "A" ruleAFind).add_regex "B" ruleBFind)).2.pos = 1) ∧
    ((Lexer.get_token ((mkLex "+").add_regex "X" ruleBFind)).1 =
        some ⟨"lit", strBytes "+", get_now_lineno_bytes (strBytes "+") 0, 0, 1, [], .Unknow⟩ ∧
      (Lexer.get_token ((mkLex "+").add_regex "X" ruleBFind)).2.pos = 1) :=
  ⟨c4_first_registered_wins.1 Unit (((mkLex "ab").add_regex "A" ruleAFind).add_regex "B" ruleBFind)
      [] [] [] ⟨ruleAFind, "A"⟩ ⟨ruleBFind, "B"⟩ 1 1 2 rfl rfl rfl rfl
      (by intro r hr; exact absurd hr (List.not_mem_nil r)) rfl rfl,
    c4_first_registered_wins.2 Unit ((mkLex "+").add_regex "X" ruleBFind) 1 rfl rfl rfl⟩

/-- When the grouping loop is entered with a stale non-empty pending-opener
stack and an empty build stack, and the first token is not an opener, the
`self.tokenstack.last_mut().unwrap()` site fires on the empty build stack
and the run ends in a panic. -/
theorem parserLoop_stale (H : Type) (lex0 : Lexer H) (t : LexToken) (fuel : Nat)
    (hts : lex0.tokenstack = [])
    (hw : lex0.wait_token ≠ [])
    (ht : (Lexer.get_token lex0).1 = some t)
    (hop : lookupMatch lex0.hash_matchs (t.ty, t.get_value) = none) :
    parserLoop (fuel + 1) lex0 = ((Lexer.get_token lex0).2, LoopExit.panicked) := by
  have hpair : Lexer.get_token lex0 = (some t, (Lexer.get_token lex0).2) :=
    Prod.ext ht rfl
  have e1 : (Lexer.get_token lex0).2.hash_matchs = lex0.hash_matchs := rfl
  have e2 : (Lexer.get_token lex0).2.wait_token = lex0.wait_token := rfl
  have e3 : (Lexer.get_token lex0).2.tokenstack = lex0.tokenstack := rfl
  simp only [parserLoop]
  rw [hpair]
  simp only [e1, e2, e3, hop, hts, Option.isSome_none, Bool.false_eq_true, if_false,
    List.length_pos.mpr hw, if_pos, List.getLast?_nil]

/-- C6: `parser_token` does not clear the pending-opener stack on entry
and its error path pops only one opener, so a call made with a stale
non-empty `wait_token` whose first token is not a registered opener
evaluates `self.tokenstack.last_mut().unwrap()` on the just-cleared, empty
build stack: the call panics (and leaves the stale stack in place) instead
of returning an error value. -/
theorem c6_stale_wait_panics (H : Type) (lex : Lexer H) (t : LexToken)
    (hw : lex.wait_token ≠ [])
    (ht : (Lexer.get_token lex).1 = some t)
    (hop : lookupMatch lex.hash_matchs (t.ty, t.get_value) = none) :
    (Lexer.parser_token lex).2 = ParseOutcome.panicked ∧
    (Lexer.parser_token lex).1.wait_token = lex.wait_token := by
  have hl := parserLoop_stale H { lex with tokenstack := ([] : List LexToken) } t
    lex.data.length rfl hw ht hop
  constructor
  · simp only [Lexer.parser_token, hl]
  · simp only [Lexer.parser_token, hl]
    rfl

/-- C6 witness: on `lexStale` (stale opener from the failed `"(("` pass,
next token the non-opener `"+"`), `parser_token` panics. -/
theorem c6_witness :
    (Lexer.parser_token lexStale).2 = ParseOutcome.panicked ∧
    (Lexer.parser_token lexStale).1.wait_token = lexStale.wait_token :=
  c6_stale_wait_panics Unit lexStale ⟨"lit", strBytes "+", 1, 0, 1, [], .Unknow⟩
    (List.cons_ne_nil _ _) rfl rfl

/-- C5 (amended): the pending-opener stack is empty on a freshly
constructed lexer (hence at the start of a first pass), and is empty
whenever `parser_token` returns successfully; but `parser_token` does not
clear it on entry, so a pass that begins after a failed pass can start
with a non-empty stack (see the counterexample). -/
theorem c5_amended_wait_empty :
    (∀ (H : Type) (data : List Nat) (h : H)
        (onRead : H → LexToken → H × Except AstError AstAny),
      (Lexer.new data h onRead).wait_token = []) ∧
    (∀ (H : Type) (lex : Lexer H), (Lexer.parser_token lex).2 = ParseOutcome.ok →
      (Lexer.parser_token lex).1.wait_token = []) := by
  constructor
  · intro H data h onRead
    rfl
  · intro H lex h
    rcases hpr : parserLoop (lex.data.length + 1)
      { lex with tokenstack := ([] : List LexToken) } with ⟨lex1, ex⟩
    cases ex with
    | normal =>
      simp only [Lexer.parser_token, hpr] at h ⊢
      by_cases hlen : lex1.wait_token.length > 0
      · rw [if_pos hlen] at h
        exact absurd h (by simp)
      · rw [if_neg hlen]
        have : lex1.wait_token.length = 0 := by omega
        exact List.length_eq_zero.mp this
    | panicked =>
      simp only [Lexer.parser_token, hpr] at h
      exact absurd h (by simp)
    | fuelOut =>
      simp only [Lexer.parser_token, hpr] at h
      exact absurd h (by simp)

/-- C5 witness: a successful pass on `"+"` ends with an empty
pending-opener stack, and the fresh lexer starts with one. -/
theorem c5_amended_witness :
    (Lexer.new (strBytes "+") () unitRead).wait_token = [] ∧
    (Lexer.parser_token (mkLex "+")).1.wait_token = [] :=
  ⟨c5_amended_wait_empty.1 Unit (strBytes "+") () unitRead,
   c5_amended_wait_empty.2 Unit (mkLex "+") rfl⟩

/-- C5 counterexample: after the pass on `"(["` fails, the pending-opener
stack still holds the unpopped `"("` opener; that very state is the state
at the start of the next `parser_token` call, and that next call —
although its scan yields no tokens at all — fails again by popping the
stale opener.  This refutes the claim that the stack is empty at the start
of every pass, including one made after a failed pass. -/
theorem c5_counterexample :
    (Lexer.parser_token (mkLex "([")).1.wait_token =
      [⟨"lit", strBytes "([", 1, 0, 1, [], .Unknow⟩] ∧
    (Lexer.parser_token (mkLex "([")).1.wait_token ≠ [] ∧
    (Lexer.parser_token (Lexer.parser_token (mkLex "([")).1).2 =
      ParseOutcome.err (AstError.noMatchClose ⟨"lit", strBytes "([", 1, 0, 1, [], .Unknow⟩) :=
  ⟨rfl, List.cons_ne_nil _ _, rfl⟩

/-- C1 (amended): when the grouping loop exhausts the input with a
non-empty pending-opener stack, `parser_token` fails with an
unbalanced-delimiter error carrying the INNERMOST unmatched opener — the
one pushed most recently (`wait_token.pop()`), not the outermost one — and
removes only that opener from the stack. -/
theorem c1_amended_innermost (H : Type) (lex : Lexer H) (lex1 : Lexer H)
    (hpr : parserLoop (lex.data.length + 1) { lex with tokenstack := ([] : List LexToken) } =
      (lex1, LoopExit.normal))
    (hw : lex1.wait_token ≠ []) :
    (Lexer.parser_token lex).2 =
      ParseOutcome.err (AstError.noMatchClose (lex1.wait_token.getLastD default)) ∧
    (Lexer.parser_token lex).1.wait_token = lex1.wait_token.dropLast := by
  simp only [Lexer.parser_token, hpr]
  rw [if_pos (List.length_pos.mpr hw)]
  exact ⟨rfl, rfl⟩

/-- C1 witness: on `"(["` both openers stay pending; the error carries the
`"["` pushed last (the innermost), and only it is removed. -/
theorem c1_amended_witness :
    (Lexer.parser_token (mkLex "([")).2 =
      ParseOutcome.err (AstError.noMatchClose ⟨"lit", strBytes "([", 1, 1, 2, [], .Unknow⟩) ∧
    (Lexer.parser_token (mkLex "([")).1.wait_token =
      [⟨"lit", strBytes "([", 1, 0, 1, [], .Unknow⟩] :=
  c1_amended_innermost Unit (mkLex "([") _ (Prod.ext rfl rfl) (List.cons_ne_nil _ _)

/-- C1 counterexample: on `"(["` the pass fails carrying the `"["` opener
(span `[1, 2)`, the most recently pushed), and NOT the outermost `"("`
opener (span `[0, 1)`, the one pushed earliest), refuting the claim that
the error identifies the outermost unmatched opener. -/
theorem c1_counterexample :
    (Lexer.parser_token (mkLex "([")).2 =
      ParseOutcome.err (AstError.noMatchClose ⟨"lit", strBytes "([", 1, 1, 2, [], .Unknow⟩) ∧
    ¬ ((Lexer.parser_token (mkLex "([")).2 =
      ParseOutcome.err (AstError.noMatchClose ⟨"lit", strBytes "([", 1, 0, 1, [], .Unknow⟩)) ∧
    (⟨"lit", strBytes "([", 1, 1, 2, [], .Unknow⟩ : LexToken).get_value = strBytes "[" ∧
    (⟨"lit", strBytes "([", 1, 0, 1, [], .Unknow⟩ : LexToken).get_value = strBytes "(" := by
  refine ⟨rfl, ?_, rfl, rfl⟩
  intro h
  have h2 : ParseOutcome.err (AstError.noMatchClose ⟨"lit", strBytes "([", 1, 1, 2, [], .Unknow⟩) =
      ParseOutcome.err (AstError.noMatchClose ⟨"lit", strBytes "([", 1, 0, 1, [], .Unknow⟩) := h
  injection h2 with he
  injection he with htok
  injection htok with hty hdata hlineno hstart
  exact absurd hstart (by decide)

/-- C2 (code bug): with a handler that fails on every token, `eval` on
`"+ -"` still returns success, and the handler log shows it was invoked on
BOTH root-level tokens — the error of the first call neither
short-circuits the dispatch loop nor reaches the caller, because `eval`
drops the result of `iter_read_token`. -/
theorem c2_eval_discards_handler_error :
    (Lexer.eval lexC2).2 = ParseOutcome.ok ∧
    ((Lexer.eval lexC2).1.handler).map LexToken.get_value = [strBytes "+", strBytes "-"] ∧
    (logRead [] ⟨"lit", strBytes "+ -", 1, 0, 1, [], .Unknow⟩).2 =
      Except.error (AstError.handlerError 0) :=
  ⟨rfl, rfl, rfl⟩

/-- C3: for `"(1+2)*3"` the flat token sequence is
`( 1 + 2 ) * 3` and the grouping pass succeeds with three roots: the
`"("` group whose children are `1 + 2 )` (closer last), then `*`, then
`3`; for `"((1))"` it succeeds with exactly one root `"("` whose children
are the inner group `( 1 )` and the outer closer `)`. -/
theorem c3_grouping_examples :
    (flatTokens lexA).map LexToken.get_value =
      [strBytes "(", strBytes "1", strBytes "+", strBytes "2",
       strBytes ")", strBytes "*", strBytes "3"] ∧
    (Lexer.parser_token lexA).2 = ParseOutcome.ok ∧
    (Lexer.parser_token lexA).1.tokenstack =
      [⟨"lit", dataA, 1, 0, 1,
         [⟨"digit", dataA, 1, 1, 2, [], .Unknow⟩,
          ⟨"lit", dataA, 1, 2, 3, [], .Unknow⟩,
          ⟨"digit", dataA, 1, 3, 4, [], .Unknow⟩,
          ⟨"lit", dataA, 1, 4, 5, [], .Unknow⟩], .Unknow⟩,
       ⟨"lit", dataA, 1, 5, 6, [], .Unknow⟩,
       ⟨"digit", dataA, 1, 6, 7, [], .Unknow⟩] ∧
    (Lexer.parser_token lexB).2 = ParseOutcome.ok ∧
    (Lexer.parser_token lexB).1.tokenstack =
      [⟨"lit", dataB, 1, 0, 1,
         [⟨"lit", dataB, 1, 1, 2,
            [⟨"digit", dataB, 1, 2, 3, [], .Unknow⟩,
             ⟨"lit", dataB, 1, 3, 4, [], .Unknow⟩], .Unknow⟩,
          ⟨"lit", dataB, 1, 4, 5, [], .Unknow⟩], .Unknow⟩] :=
  ⟨rfl, rfl, rfl, rfl, rfl⟩

/-- Lookup through the inner insertion loop of `do_analyse_prec`: a key is
bound to this declaration's value exactly when its type matches and its
lexeme occurs in the declaration's list; other keys are untouched. -/
theorem insertRule_lookup (r : LexPrec) (idx : Nat) :
    ∀ (ps : List String) (m : (String × String) → Option (Bool × Int)) (q : String × String),
      (ps.foldl (fun acc p => insertKV acc (r.ty, p) (r.left, (idx : Int))) m) q =
        if q.1 = r.ty ∧ q.2 ∈ ps then some (r.left, (idx : Int)) else m q := by
  intro ps
  induction ps with
  | nil => intro m q; simp
  | cons p ps' ih =>
    intro m q
    simp only [List.foldl_cons]
    rw [ih]
    by_cases hty : q.1 = r.ty
    · by_cases hmem : q.2 ∈ ps'
      · simp [hty, hmem]
      · by_cases hp : q.2 = p
        · have hq : q = (r.ty, p) := Prod.ext hty hp
          simp [hty, hmem, hp, insertKV, hq]
        · have hq : q ≠ (r.ty, p) := by
            intro hq'
            rw [hq'] at hp
            exact hp rfl
          simp [hty, hmem, hp, insertKV, hq]
    · have hq : q ≠ (r.ty, p) := by
        intro hq'
        rw [hq'] at hty
        exact hty rfl
      simp [hty, insertKV, hq]

/-- Declarations that do not mention a key leave its binding unchanged. -/
theorem analyseGo_no_match :
    ∀ (rs : List LexPrec) (idx : Nat) (m : (String × String) → Option (Bool × Int))
      (q : String × String),
      (∀ r' ∈ rs, ¬(q.1 = r'.ty ∧ q.2 ∈ r'.precs)) → analyseGo rs idx m q = m q := by
  intro rs
  induction rs with
  | nil => intro idx m q _; rfl
  | cons r rs' ih =>
    intro idx m q hq
    simp only [analyseGo]
    rw [ih (idx + 1) _ q (fun r' h' => hq r' (List.mem_cons_of_mem _ h'))]
    simp only [insertRule]
    rw [insertRule_lookup r idx r.precs m q]
    rw [if_neg (hq r (List.mem_cons_self _ _))]

/-- Processing a concatenation of declaration lists processes the second
list after the first, with the index shifted by the first list's length. -/
theorem analyseGo_append :
    ∀ (xs ys : List LexPrec) (idx : Nat) (m : (String × String) → Option (Bool × Int)),
      analyseGo (xs ++ ys) idx m = analyseGo ys (idx + xs.length) (analyseGo xs idx m) := by
  intro xs
  induction xs with
  | nil => intro ys idx m; simp [analyseGo]
  | cons x xs' ih =>
    intro ys idx m
    have h1 : analyseGo ((x :: xs') ++ ys) idx m =
        analyseGo (xs' ++ ys) (idx + 1) (insertRule m x idx) := rfl
    have h2 : analyseGo (x :: xs') idx m =
        analyseGo xs' (idx + 1) (insertRule m x idx) := rfl
    rw [h1, ih, h2]
    simp only [List.length_cons]
    rw [show idx + 1 + xs'.length = idx + (xs'.length + 1) from by omega]

/-- C9: the precedence table maps a `(type, lexeme)` key to the
associativity and rank (declaration index) of the LAST declared rule
containing that lexeme — a later insertion overwrites an earlier one — and
with the default declarations, looking up `("lit", "-")` returns the
right-associative entry of rank 2, not the left-associative entry of
rank 0. -/
theorem c9_last_declared_wins :
    (∀ (precs pre post : List LexPrec) (r : LexPrec) (ty lx : String),
      precs = pre ++ r :: post →
      r.ty = ty → lx ∈ r.precs →
      (∀ r' ∈ post, ¬(ty = r'.ty ∧ lx ∈ r'.precs)) →
      do_analyse_prec precs (ty, lx) = some (r.left, (pre.length : Int))) ∧
    do_analyse_prec defaultPrecs ("lit", "-") = some (false, 2) := by
  constructor
  · intro precs pre post r ty lx hsplit hty hmem hpost
    subst hsplit
    unfold do_analyse_prec
    rw [analyseGo_append pre (r :: post) 0 _]
    simp only [analyseGo]
    rw [analyseGo_no_match post _ _ _ hpost]
    simp only [insertRule]
    rw [insertRule_lookup r (0 + pre.length) r.precs _ (ty, lx)]
    rw [if_pos ⟨hty.symm, hmem⟩]
    simp
  · rfl

/-- C9 witness: instantiating the last-declared-wins statement at the
default declarations `[left:(+,-), left:(*,/), right:(-)]` and the key
`("lit", "-")` yields the right-associative rank-2 entry. -/
theorem c9_witness :
    do_analyse_prec defaultPrecs ("lit", "-") = some (false, (2 : Int)) :=
  c9_last_declared_wins.1 defaultPrecs
    [⟨"lit", true, ["+", "-"]⟩, ⟨"lit", true, ["*", "/"]⟩] []
    ⟨"lit", false, ["-"]⟩ "lit" "-" rfl rfl (List.mem_cons_self _ _)
    (fun r' h' => absurd h' (List.not_mem_nil r'))

/-- The encoded length of a codepoint matches `utf8Len`. -/
theorem utf8EncodeChar_length (c : Nat) : (utf8EncodeChar c).length = utf8Len c := by
  unfold utf8EncodeChar utf8Len
  split_ifs <;> rfl

/-- Every encoded length is at least one byte. -/
theorem utf8Len_pos (c : Nat) : 1 ≤ utf8Len c := by
  unfold utf8Len
  split_ifs <;> omega

/-- A byte below 0x80 has no leading one bit. -/
theorem countLeadBits_ascii : ∀ b : Nat, b < 128 → countLeadBits b 8 = 0 := by decide

/-- A byte in [0xC2, 0xDF] has exactly two leading one bits. -/
theorem countLeadBits_two : ∀ b : Nat, b < 224 → 194 ≤ b → countLeadBits b 8 = 2 := by decide

/-- A byte in [0xE0, 0xEF] has exactly three leading one bits. -/
theorem countLeadBits_three : ∀ b : Nat, b < 240 → 224 ≤ b → countLeadBits b 8 = 3 := by decide

/-- A byte in [0xF0, 0xF7] has exactly four leading one bits. -/
theorem countLeadBits_four : ∀ b : Nat, b < 248 → 240 ≤ b → countLeadBits b 8 = 4 := by decide

/-- The leading-byte length computation of `get_next_pos` recovers the
encoded length of the character whose encoding starts there. -/
theorem utf8_lead_byte (c : Nat) (hc : c < 0x110000) :
    max (countLeadBits ((utf8EncodeChar c).headD 0) 8) 1 = utf8Len c := by
  unfold utf8EncodeChar utf8Len
  split_ifs with h1 h2 h3
  · simp only [List.headD_cons]
    rw [countLeadBits_ascii c h1]
    decide
  · simp only [List.headD_cons]
    rw [countLeadBits_two (0xC0 + c / 64) (by omega) (by omega)]
    decide
  · simp only [List.headD_cons]
    rw [countLeadBits_three (0xE0 + c / 4096) (by omega) (by omega)]
    decide
  · simp only [List.headD_cons]
    rw [countLeadBits_four (0xF0 + c / 262144) (by omega) (by omega)]
    decide

/-- Scanning past a prefix of the buffer shifts `get_next_pos` by the
prefix length. -/
theorem get_next_pos_shift (E rest : List Nat) (i : Nat) (h : E.length ≤ i) :
    get_next_pos_bytes (E ++ rest) i =
      (get_next_pos_bytes rest (i - E.length)).map (fun p => p + E.length) := by
  simp only [get_next_pos_bytes, List.length_append]
  rw [List.getD_append_right E rest 0 i h]
  by_cases h1 : i ≥ E.length + rest.length
  · rw [if_pos h1, if_pos (by omega)]
    rfl
  · rw [if_neg h1, if_neg (by omega : ¬ i - E.length ≥ rest.length)]
    by_cases h2 : i + max (countLeadBits (rest.getD (i - E.length) 0) 8) 1 >
        E.length + rest.length
    · rw [if_pos h2, if_pos (by omega)]
      rfl
    · rw [if_neg h2, if_neg (by omega)]
      simp only [Option.map_some']
      rw [Option.some.injEq]
      omega

/-- Offset zero is a boundary of every buffer. -/
theorem isBoundary_zero (cs : List Nat) : isBoundary cs 0 = true := by
  cases cs <;> rfl

/-- From a boundary, `get_next_pos` lands on the next boundary: it never
returns a position inside a multi-byte sequence. -/
theorem utf8_next_boundary (cs : List Nat) (hcs : ∀ c ∈ cs, c < 0x110000) :
    ∀ i j, isBoundary cs i = true → get_next_pos_bytes (utf8EncodeList cs) i = some j →
      isBoundary cs j = true ∧ i < j := by
  induction cs with
  | nil =>
    intro i j hb h
    simp [utf8EncodeList, get_next_pos_bytes] at h
  | cons c cs' ih =>
    intro i j hb h
    have hc : c < 0x110000 := hcs c (List.mem_cons_self _ _)
    have hcs' : ∀ c' ∈ cs', c' < 0x110000 := fun c' h' => hcs c' (List.mem_cons_of_mem _ h')
    have hlen : (utf8EncodeChar c).length = utf8Len c := utf8EncodeChar_length c
    have hL1 : 1 ≤ utf8Len c := utf8Len_pos c
    have hdata : utf8EncodeList (c :: cs') = utf8EncodeChar c ++ utf8EncodeList cs' := by
      simp [utf8EncodeList]
    rcases Nat.eq_zero_or_pos i with hi | hi
    · subst hi
      rw [hdata] at h
      have hbyte : (utf8EncodeChar c ++ utf8EncodeList cs').getD 0 0 =
          (utf8EncodeChar c).headD 0 := by
        rcases he : utf8EncodeChar c with _ | ⟨b, E'⟩
        · rw [he] at hlen
          simp at hlen
          omega
        · rfl
      rw [get_next_pos_bytes] at h
      simp only [List.length_append, hbyte, hlen, utf8_lead_byte c hc] at h
      split at h
      · exact absurd h (by simp)
      · split at h
        · exact absurd h (by simp)
        · rename_i hout
          have hj : j = utf8Len c := by
            have := Option.some.inj h
            omega
          subst hj
          refine ⟨?_, by omega⟩
          obtain ⟨L', hL'⟩ : ∃ L', utf8Len c = L' + 1 := ⟨utf8Len c - 1, by omega⟩
          rw [hL']
          simp only [isBoundary]
          rw [if_pos (by omega)]
          rw [show L' + 1 - utf8Len c = 0 from by omega]
          exact isBoundary_zero cs'
    · obtain ⟨i', rfl⟩ : ∃ i', i = i' + 1 := ⟨i - 1, by omega⟩
      simp only [isBoundary] at hb
      split at hb
      · rename_i hLle
        rw [hdata, get_next_pos_shift _ _ _ (by omega)] at h
        rcases hrest : get_next_pos_bytes (utf8EncodeList cs') (i' + 1 - (utf8EncodeChar c).length)
          with _ | j'
        · rw [hrest] at h
          exact absurd h (by simp)
        · rw [hrest] at h
          simp only [Option.map_some'] at h
          have hj : j = j' + (utf8EncodeChar c).length := (Option.some.inj h).symm
          rw [hlen] at hrest hj
          obtain ⟨hb', hlt⟩ := ih hcs' (i' + 1 - utf8Len c) j' hb hrest
          subst hj
          obtain ⟨k, hk⟩ : ∃ k, j' + utf8Len c = k + 1 := ⟨j' + utf8Len c - 1, by omega⟩
          constructor
          · rw [hk]
            simp only [isBoundary]
            rw [if_pos (by omega)]
            rw [show k + 1 - utf8Len c = j' from by omega]
            exact hb'
          · omega
      · exact absurd hb (by simp)

/-- Core boundary lemma: over a UTF-8 buffer, starting from a boundary,
every token the retry loop emits has boundary-aligned `start` and `end`
(given that every rule's matches end on boundaries, the contract the regex
crate provides for `&str` haystacks). -/
theorem getTokenCore_boundary (cs : List Nat) (hcs : ∀ c ∈ cs, c < 0x110000)
    (ign lits : List Nat) (res : List LexRegex)
    (hres : ∀ r ∈ res, ∀ i e, isBoundary cs i = true →
      r.re (utf8EncodeList cs) i = some (i, e) → isBoundary cs e = true) :
    ∀ fuel ori sp t p, isBoundary cs ori = true →
      get_tokenCore (utf8EncodeList cs) ign lits res fuel ori sp = (some t, p) →
      isBoundary cs t.start = true ∧ isBoundary cs t.«end» = true := by
  intro fuel
  induction fuel with
  | zero => intro ori sp t p hb h; simp [get_tokenCore] at h
  | succ n ih =>
    intro ori sp t p hb h
    simp only [get_tokenCore] at h
    split at h
    · exact absurd h (by simp)
    · rename_i pos hnp
      have hbp := utf8_next_boundary cs hcs ori pos hb hnp
      split at h
      · exact ih _ _ _ _ hbp.1 h
      · split at h
        · simp only [Prod.mk.injEq, Option.some.injEq] at h
          obtain ⟨ht, hp⟩ := h
          subst ht
          exact ⟨hb, hbp.1⟩
        · split at h
          · rename_i ty s e hfr
            simp only [Prod.mk.injEq, Option.some.injEq] at h
            obtain ⟨ht, hp⟩ := h
            subst ht
            obtain ⟨hs, r, hmem, hre, hty⟩ := findRule_sound res _ ori ty s e hfr
            subst hs
            exact ⟨hb, hres r hmem s e hb hre⟩
          · exact ih _ _ _ _ hbp.1 h

/-- C10: over a valid UTF-8 buffer, starting from a boundary-aligned
cursor and with pattern rules whose matches end on character boundaries
(the regex crate's contract on `&str`), every token `get_token` emits has
boundary-aligned `start` and `end`; and `get_next_pos`, given a
boundary-aligned offset, never returns a position inside a multi-byte
sequence. -/
theorem c10_boundary_safety (H : Type) (lex : Lexer H) (cs : List Nat)
    (hdata : lex.data = utf8EncodeList cs)
    (hcs : ∀ c ∈ cs, c < 0x110000)
    (hpos : isBoundary cs lex.pos = true)
    (hres : ∀ r ∈ lex.res, ∀ i e, isBoundary cs i = true →
      r.re lex.data i = some (i, e) → isBoundary cs e = true) :
    (∀ t lex1, Lexer.get_token lex = (some t, lex1) →
      isBoundary cs t.start = true ∧ isBoundary cs t.«end» = true) ∧
    (∀ i j, isBoundary cs i = true → get_next_pos_bytes lex.data i = some j →
      isBoundary cs j = true) := by
  constructor
  · intro t lex1 h
    have h1 : (get_tokenCore lex.data lex.ignore lex.literals lex.res
        (lex.data.length + 1) lex.pos lex.pos).1 = some t := congrArg Prod.fst h
    rw [hdata] at h1 hres
    exact getTokenCore_boundary cs hcs lex.ignore lex.literals lex.res hres
      ((utf8EncodeList cs).length + 1) lex.pos lex.pos t _ hpos (Prod.ext h1 rfl)
  · intro i j hbi hnp
    rw [hdata] at hnp
    exact (utf8_next_boundary cs hcs i j hbi hnp).1

/-- C10 witness: on the buffer encoding the codepoints `é (`, where `é`
occupies bytes 0-1, the first emitted token is the `(` literal spanning
`[2, 3)`; both offsets are character boundaries. -/
theorem c10_witness :
    isBoundary [233, 40] 2 = true ∧ isBoundary [233, 40] 3 = true :=
  (c10_boundary_safety Unit (Lexer.new (utf8EncodeList [233, 40]) () unitRead) [233, 40]
    rfl (by decide) (by decide)
    (fun r hr => absurd hr (List.not_mem_nil r))).1
    ⟨"lit", utf8EncodeList [233, 40], 1, 2, 3, [], .Unknow⟩
    { Lexer.new (utf8EncodeList [233, 40]) () unitRead with pos := 3 } rfl
